import Mathlib

/-
Verification of the multi-source academic search engine of the
arxiv-research-agent repository.

The embedding translates `src/arxiv_agent/search/base_search.py` and
`src/arxiv_agent/search/enhanced_search.py`.  Strings are modelled as Lean
`String` (a list of characters); the ASCII fragment of Python's `str.lower`,
`re` word characters and whitespace is modelled explicitly.  Network calls
and the sklearn TF-IDF vectorizer are external effects: each adapter takes
the outcome of its HTTP round-trip as an oracle argument (`none` models a
transport error, a non-2xx status or a parse failure, all of which the code
maps to an empty contribution), and the ranking step takes the outcome of
`TfidfVectorizer.fit_transform` + `cosine_similarity` as an oracle
(`none` models the vectorizer raising, e.g. on a degenerate vocabulary).
A raised exception that escapes a function is modelled by an `Option`
result of `none`.  Scores are rationals in the pipeline; the
cosine-similarity metric itself is modelled over the reals separately.
-/

/-- ASCII model of Python `str.lower` on one character: `'A'..'Z'`
(code points 65..90) map 32 code points up, everything else is fixed. -/
def lowerChar (c : Char) : Char :=
  if 65 ≤ c.toNat ∧ c.toNat ≤ 90 then Char.ofNat (c.toNat + 32) else c

/-- ASCII model of the regex class `\w`: letters, digits and underscore. -/
def isWordChar (c : Char) : Bool :=
  c.isAlphanum || c == '_'

/-- Split a character list into the maximal runs of characters that do not
satisfy `sep`, dropping empty runs; `acc` holds the reversed current run.
Structural recursion so that it evaluates by `rfl`/`decide`. -/
def splitRunsAux (sep : Char → Bool) : List Char → List Char → List (List Char)
  | [], acc => if acc = [] then [] else [acc.reverse]
  | c :: cs, acc =>
    if sep c then (if acc = [] then [] else [acc.reverse]) ++ splitRunsAux sep cs []
    else splitRunsAux sep cs (c :: acc)

/-- Python `str.split()` with no argument: split on whitespace runs,
dropping empty pieces. -/
def splitWords (l : List Char) : List (List Char) :=
  splitRunsAux (fun c => c.isWhitespace) l []

/-- Python `' '.join(words)`. -/
def joinWords : List (List Char) → List Char
  | [] => []
  | [w] => w
  | w :: ws => w ++ ' ' :: joinWords ws

/-- Python `re.sub(r'[^\w\s]', ' ', text)`: every character that is neither
a word character nor whitespace becomes a space. -/
def punctToSpace (l : List Char) : List Char :=
  l.map fun c => if isWordChar c || c.isWhitespace then c else ' '

/-- Python `str.lower` on a whole string (ASCII model). -/
def pyLower (s : String) : String := String.mk (s.toList.map lowerChar)

/-- Modelled from the spec: the generic English stop-word list
(`sklearn.feature_extraction.text.ENGLISH_STOP_WORDS`), which the
repository imports from sklearn; sklearn itself is not part of the
repository.  The spec only requires a fixed generic stop-word list; none of
the verified claims depends on its exact contents. -/
def ENGLISH_STOP_WORDS : List String :=
  ["a", "about", "above", "across", "after", "afterwards", "again", "against",
   "all", "almost", "alone", "along", "already", "also", "although", "always",
   "am", "among", "amongst", "amoungst", "amount", "an", "and", "another",
   "any", "anyhow", "anyone", "anything", "anyway", "anywhere", "are",
   "around", "as", "at", "back", "be", "became", "because", "become",
   "becomes", "becoming", "been", "before", "beforehand", "behind", "being",
   "below", "beside", "besides", "between", "beyond", "bill", "both",
   "bottom", "but", "by", "call", "can", "cannot", "cant", "co", "con",
   "could", "couldnt", "cry", "de", "describe", "detail", "do", "done",
   "down", "due", "during", "each", "eg", "eight", "either", "eleven",
   "else", "elsewhere", "empty", "enough", "etc", "even", "ever", "every",
   "everyone", "everything", "everywhere", "except", "few", "fifteen",
   "fifty", "fill", "find", "fire", "first", "five", "for", "former",
   "formerly", "forty", "found", "four", "from", "front", "full", "further",
   "get", "give", "go", "had", "has", "hasnt", "have", "he", "hence", "her",
   "here", "hereafter", "hereby", "herein", "hereupon", "hers", "herself",
   "him", "himself", "his", "how", "however", "hundred", "i", "ie", "if",
   "in", "inc", "indeed", "interest", "into", "is", "it", "its", "itself",
   "keep", "last", "latter", "latterly", "least", "less", "ltd", "made",
   "many", "may", "me", "meanwhile", "might", "mill", "mine", "more",
   "moreover", "most", "mostly", "move", "much", "must", "my", "myself",
   "name", "namely", "neither", "never", "nevertheless", "next", "nine",
   "no", "nobody", "none", "noone", "nor", "not", "nothing", "now",
   "nowhere", "of", "off", "often", "on", "once", "one", "only", "onto",
   "or", "other", "others", "otherwise", "our", "ours", "ourselves", "out",
   "over", "own", "part", "per", "perhaps", "please", "put", "rather", "re",
   "same", "see", "seem", "seemed", "seeming", "seems", "serious",
   "several", "she", "should", "show", "side", "since", "sincere", "six",
   "sixty", "so", "some", "somehow", "someone", "something", "sometime",
   "sometimes", "somewhere", "still", "such", "system", "take", "ten",
   "than", "that", "the", "their", "them", "themselves", "then", "thence",
   "there", "thereafter", "thereby", "therefore", "therein", "thereupon",
   "these", "they", "thick", "thin", "third", "this", "those", "though",
   "three", "through", "throughout", "thru", "thus", "to", "together",
   "too", "top", "toward", "towards", "twelve", "twenty", "two", "un",
   "under", "until", "up", "upon", "us", "very", "via", "was", "we", "well",
   "were", "what", "whatever", "when", "whence", "whenever", "where",
   "whereafter", "whereas", "whereby", "wherein", "whereupon", "wherever",
   "whether", "which", "while", "whither", "who", "whoever", "whole",
   "whom", "whose", "why", "will", "with", "within", "without", "would",
   "yet", "you", "your", "yours", "yourself", "yourselves"]

/-- The fixed academic allowlist of `BaseSearchEngine.clean_query`
(`base_search.py`, lines 45-59), copied verbatim. -/
def academic_keywords : List String :=
  ["research", "study", "analysis", "method", "approach", "technique",
   "algorithm", "model", "learning", "neural", "network", "deep",
   "machine", "artificial", "intelligence", "data", "science",
   "computer", "vision", "processing", "natural", "language",
   "quantum", "computing", "robotics", "optimization", "classification",
   "regression", "clustering", "supervised", "unsupervised",
   "reinforcement", "transformer", "attention", "convolution",
   "graph", "embedding", "feature", "detection", "recognition",
   "segmentation", "generation", "prediction", "evaluation",
   "performance", "accuracy", "precision", "recall", "framework",
   "architecture", "implementation", "application", "development",
   "latest", "recent", "new", "novel", "advanced", "state-of-the-art",
   "compared", "comparison", "survey", "review", "comprehensive"]

/-- The tokens of `clean_query`'s intermediate step:
`re.sub(r'[^\w\s]', ' ', query.lower()).split()`. -/
def queryTokens (q : String) : List (List Char) :=
  splitWords (punctToSpace (q.toList.map lowerChar))

/-- The same tokens, packaged as strings. -/
def tokensOf (q : String) : List String := (queryTokens q).map fun w => String.mk w

/-- The surviving tokens of `clean_query`: length above 2, and not a stop
word unless on the academic allowlist (`base_search.py`, lines 66-69). -/
def filtered_words (q : String) : List (List Char) :=
  (queryTokens q).filter fun w =>
    decide (2 < w.length) &&
      (!(ENGLISH_STOP_WORDS.contains (String.mk w)) ||
        academic_keywords.contains (String.mk w))

/-- `BaseSearchEngine.clean_query` (`base_search.py`, lines 34-75): filter
the tokens, but return the raw query verbatim when fewer than 2 tokens
survive. -/
def clean_query (query : String) : String :=
  if (filtered_words query).length < 2 then query
  else String.mk (joinWords (filtered_words query))

/-- Python `str.strip()`: drop leading and trailing whitespace. -/
def trimWs (l : List Char) : List Char :=
  ((l.dropWhile fun c => c.isWhitespace).reverse.dropWhile
    fun c => c.isWhitespace).reverse

/-- The deduplication key of both deduplicators:
`re.sub(r'[^\w\s]', '', title.lower()).strip()` (`base_search.py` line 135,
`enhanced_search.py` line 314).  Note the punctuation is removed here, not
replaced by a space. -/
def normTitleKey (title : String) : List Char :=
  trimWs ((title.toList.map lowerChar).filter fun c => isWordChar c || c.isWhitespace)

/-- `VisualData` (`core/models.py`). -/
structure VisualData where
  type : String
  description : String
  text_content : String
  base64_image : String := ""
  page_number : Nat := 0
deriving DecidableEq

/-- `ResearchPaper` (`core/models.py`).  `relevance_score` is modelled as a
rational (the code stores a float). -/
structure ResearchPaper where
  title : String
  authors : List String
  abstract : String
  url : String
  published_date : String
  categories : List String
  relevance_score : ℚ := 0
  visual_data : List VisualData := []
deriving DecidableEq

/-- `SearchResult` (`core/models.py`). -/
structure SearchResult where
  title : String
  url : String
  snippet : String
  source : String
  publication_date : String := ""
  authors : List String := []
  relevance_score : ℚ := 0
deriving DecidableEq

/-- The common skeleton of `BaseSearchEngine.deduplicate_papers`
(`base_search.py`, lines 127-139) and of the filtering part of
`EnhancedSearchEngine._deduplicate_and_convert` (`enhanced_search.py`,
lines 307-317): keep an element when its title is non-empty, its normalized
key is non-empty and the key has not been seen before. -/
def dedupAux {α : Type} (titleOf : α → String) : List (List Char) → List α → List α
  | _, [] => []
  | seen, x :: xs =>
    if titleOf x = "" then dedupAux titleOf seen xs
    else
      if normTitleKey (titleOf x) ≠ [] ∧ normTitleKey (titleOf x) ∉ seen then
        x :: dedupAux titleOf (normTitleKey (titleOf x) :: seen) xs
      else dedupAux titleOf seen xs

/-- `BaseSearchEngine.deduplicate_papers` (`base_search.py`, lines 117-140). -/
def deduplicate_papers (papers : List ResearchPaper) : List ResearchPaper :=
  dedupAux (fun p => p.title) [] papers

/-- The conversion done inside `_deduplicate_and_convert`
(`enhanced_search.py`, lines 318-327): build a `ResearchPaper` from a
surviving `SearchResult`, using the provider tag as the sole category. -/
def resultToPaper (r : SearchResult) : ResearchPaper :=
  { title := r.title, authors := r.authors, abstract := r.snippet,
    url := r.url, published_date := r.publication_date,
    categories := [r.source], relevance_score := 0, visual_data := [] }

/-- `EnhancedSearchEngine._deduplicate_and_convert` (`enhanced_search.py`,
lines 305-329).  The `query` argument is unused, as in the source. -/
def deduplicate_and_convert (results : List SearchResult) (_query : String) :
    List ResearchPaper :=
  (dedupAux (fun r => r.title) [] results).map resultToPaper

/-- The keyword set of the ranking fallback:
`set(query.lower().split())` (`base_search.py` line 109), as a list of the
distinct tokens. -/
def queryKeywords (query : String) : List (List Char) :=
  (splitWords (pyLower query).toList).dedup

/-- The fallback score of one paper (`base_search.py`, lines 110-113):
the fraction of distinct query keywords occurring as substrings of
`title + " " + abstract` lowercased. -/
def fallbackScoreOf (query : String) (p : ResearchPaper) : ℚ :=
  let ks := queryKeywords query
  let text := (pyLower (p.title ++ " " ++ p.abstract)).toList
  (((ks.filter fun k => decide (k <:+: text)).length : ℚ) / (ks.length : ℚ))

/-- The whole fallback branch of `calculate_relevance_scores`.  When the
query has no keywords, the Python code evaluates `matches / 0` and raises
`ZeroDivisionError` on the first paper, before assigning any score;
`none` models that raised exception. -/
def fallbackScores (papers : List ResearchPaper) (query : String) :
    Option (List ResearchPaper) :=
  if (queryKeywords query).length = 0 then none
  else some (papers.map fun p => { p with relevance_score := fallbackScoreOf query p })

/-- Assign the cosine-path similarities positionally (`base_search.py`,
lines 103-104). -/
def setScores (papers : List ResearchPaper) (sims : Nat → ℚ) : List ResearchPaper :=
  papers.mapIdx fun i p => { p with relevance_score := sims i }

/-- The document batch handed to the vectorizer (`base_search.py`, lines
91-95): one document per paper (`title + " " + abstract`) and the raw query
appended last. -/
def documentsOf (papers : List ResearchPaper) (query : String) : List String :=
  (papers.map fun p => p.title ++ " " ++ p.abstract) ++ [query]

/-- `BaseSearchEngine.calculate_relevance_scores` (`base_search.py`, lines
77-115).  `vectorize` is the outcome of the sklearn TF-IDF computation on
the document batch: `some sims` gives the cosine similarity of each paper
document against the query document, `none` models `fit_transform` or
`cosine_similarity` raising (the `except` branch). -/
def calculate_relevance_scores (vectorize : List String → Option (Nat → ℚ))
    (papers : List ResearchPaper) (query : String) : Option (List ResearchPaper) :=
  if papers = [] then some papers
  else
    match vectorize (documentsOf papers query) with
    | some sims => some (setScores papers sims)
    | none => fallbackScores papers query

/-- One entry of a parsed ArXiv Atom feed, as `feedparser` exposes it to
`_parse_arxiv_response`. -/
structure ArxivEntry where
  title : String := ""
  authors : List String := []
  summary : String := ""
  link : String := ""
  published : String := ""
  tags : List String := []
deriving DecidableEq

/-- Python `s.replace('\n', ' ')`. -/
def replaceNewlines (s : String) : String :=
  String.mk (s.toList.map fun c => if c = '\n' then ' ' else c)

/-- Python `str.strip()` on a string. -/
def pyStrip (s : String) : String := String.mk (trimWs s.toList)

/-- `EnhancedSearchEngine._parse_arxiv_response` (`enhanced_search.py`,
lines 107-133): keep the entries whose processed title and abstract are
both non-empty; the entry categories become the paper categories. -/
def parse_arxiv_response (entries : List ArxivEntry) : List ResearchPaper :=
  entries.filterMap fun e =>
    let title := pyStrip (replaceNewlines e.title)
    let abstract := pyStrip (replaceNewlines e.summary)
    if title ≠ "" ∧ abstract ≠ "" then
      some { title := title, authors := e.authors, abstract := abstract,
             url := e.link, published_date := e.published,
             categories := e.tags, relevance_score := 0, visual_data := [] }
    else none

/-- The six query-construction strategies of `_search_arxiv`
(`enhanced_search.py`, lines 78-85); the first three use the
whitespace-normalized query, the last three the query as passed in. -/
def arxiv_strategies (cq q : String) : List String :=
  ["all:\"" ++ cq ++ "\"",
   "ti:(" ++ cq ++ ")",
   "abs:(" ++ cq ++ ")",
   "cat:cs.* AND all:" ++ q,
   "all:" ++ q ++ " AND cat:cs.LG",
   "all:" ++ q ++ " AND cat:cs.CV"]

/-- `EnhancedSearchEngine._search_arxiv` (`enhanced_search.py`, lines
72-105).  `get` is the HTTP oracle, taking a strategy string and the
per-strategy limit; `none` covers a non-200 status, a timeout or any
exception inside one strategy (the loop then just continues). -/
def search_arxiv (get : String → Nat → Option (List ArxivEntry))
    (query : String) (max_results : Nat) : List ResearchPaper :=
  let cq := String.mk (joinWords (splitWords query.toList))
  let strategies := arxiv_strategies cq query
  let strategy_limit := max 1 (max_results / strategies.length)
  strategies.foldl (fun papers s =>
    match get s strategy_limit with
    | some entries => papers ++ parse_arxiv_response entries
    | none => papers) []

/-- One organic item of a Serper response, with the defaulted field reads
of `enhanced_search.py` lines 168-175. -/
structure SerperItem where
  title : String := ""
  link : String := ""
  snippet : String := ""
  date : String := ""
deriving DecidableEq

/-- One scholar item of a Serper response (`enhanced_search.py` lines
179-187); `publicationSummary` is `publicationInfo.summary`. -/
structure SerperScholarItem where
  title : String := ""
  link : String := ""
  snippet : String := ""
  publicationSummary : String := ""
deriving DecidableEq

/-- The body of a successful Serper response. -/
structure SerperData where
  organic : List SerperItem := []
  scholar : List SerperScholarItem := []
deriving DecidableEq

/-- The academic site filter appended to the Serper query
(`enhanced_search.py`, line 143). -/
def serper_site_filter : String :=
  " site:arxiv.org OR site:scholar.google.com OR site:researchgate.net OR site:ieee.org OR site:acm.org OR filetype:pdf"

/-- `EnhancedSearchEngine._search_serper` (`enhanced_search.py`, lines
135-194).  Returns the parsed results together with the number of outbound
HTTP calls attempted.  With no API key the function returns immediately:
no request is built and no call is made (lines 137-138).  `post` is the
HTTP oracle; `none` covers a non-200 status or any exception. -/
def search_serper (serper_api_key : Option String)
    (post : String → Nat → Option SerperData) (query : String)
    (max_results : Nat) : List SearchResult × Nat :=
  match serper_api_key with
  | none => ([], 0)
  | some _ =>
    match post (query ++ serper_site_filter) max_results with
    | none => ([], 1)
    | some data =>
      ((data.organic.map fun it =>
          { title := it.title, url := it.link, snippet := it.snippet,
            source := "serper", publication_date := it.date,
            authors := [], relevance_score := 0 }) ++
       (data.scholar.map fun it =>
          { title := it.title, url := it.link, snippet := it.snippet,
            source := "serper_scholar",
            publication_date := it.publicationSummary,
            authors := [], relevance_score := 0 }), 1)

/-- One author object of a Semantic Scholar paper. -/
structure S2Author where
  name : String := ""
deriving DecidableEq

/-- One paper of a Semantic Scholar response (`enhanced_search.py`, lines
220-233); `year` is already rendered to a string as `str(...)` does. -/
structure S2Paper where
  title : String := ""
  abstract : String := ""
  authors : List S2Author := []
  year : String := ""
  url : String := ""
deriving DecidableEq

/-- The snippet truncation `abstract[:500] + "..." if abstract else ''`
used by the Semantic Scholar and CrossRef adapters. -/
def truncateSnippet (abstract : String) : String :=
  if abstract = "" then "" else String.mk (abstract.toList.take 500) ++ "..."

/-- `EnhancedSearchEngine._search_semantic_scholar` (`enhanced_search.py`,
lines 196-240).  The API key only adds a header when present; the call is
made either way, so the oracle does not depend on the key. -/
def search_semantic_scholar (_semantic_scholar_api_key : Option String)
    (get : String → Nat → Option (List S2Paper)) (query : String)
    (max_results : Nat) : List SearchResult :=
  match get query max_results with
  | none => []
  | some papers =>
    papers.map fun p =>
      { title := p.title, url := p.url, snippet := truncateSnippet p.abstract,
        source := "semantic_scholar", publication_date := p.year,
        authors := p.authors.map (fun a => a.name), relevance_score := 0 }

/-- One author object of a CrossRef item. -/
structure CRAuthor where
  given : String := ""
  family : String := ""
deriving DecidableEq

/-- One item of a CrossRef response (`enhanced_search.py`, lines 261-281);
`publishedYear` is the already-rendered first `date-parts` component, or
empty when absent. -/
structure CRItem where
  title : List String := []
  author : List CRAuthor := []
  abstract : String := ""
  publishedYear : String := ""
  URL : String := ""
deriving DecidableEq

/-- `EnhancedSearchEngine._search_crossref` (`enhanced_search.py`, lines
242-288). -/
def search_crossref (get : String → Nat → Option (List CRItem))
    (query : String) (max_results : Nat) : List SearchResult :=
  match get query max_results with
  | none => []
  | some items =>
    items.map fun it =>
      { title := String.intercalate " " it.title, url := it.URL,
        snippet := truncateSnippet it.abstract, source := "crossref",
        publication_date := it.publishedYear,
        authors := it.author.map (fun a => a.given ++ " " ++ a.family),
        relevance_score := 0 }

/-- `EnhancedSearchEngine._convert_papers_to_results` (`enhanced_search.py`,
lines 290-303): the papers' own `categories` are dropped and the source tag
is fixed to `arxiv`. -/
def convert_papers_to_results (papers : List ResearchPaper) : List SearchResult :=
  papers.map fun p =>
    { title := p.title, url := p.url, snippet := p.abstract, source := "arxiv",
      publication_date := p.published_date, authors := p.authors,
      relevance_score := 0 }

/-- The external world one `search_papers` call interacts with: one HTTP
oracle per provider and the outcome of the TF-IDF vectorization. -/
structure Env where
  arxivGet : String → Nat → Option (List ArxivEntry)
  serperPost : String → Nat → Option SerperData
  semanticGet : String → Nat → Option (List S2Paper)
  crossrefGet : String → Nat → Option (List CRItem)
  vectorize : List String → Option (Nat → ℚ)

/-- The credential state of `EnhancedSearchEngine.__init__`. -/
structure EnhancedSearchEngine where
  serper_api_key : Option String := none
  semantic_scholar_api_key : Option String := none

/-- The Serper segment of the aggregation (`enhanced_search.py`, lines
49-52): only present when the API key is configured. -/
def serper_contribution (self : EnhancedSearchEngine) (env : Env)
    (cleaned : String) (max_results : Nat) : List SearchResult :=
  if self.serper_api_key.isSome then
    (search_serper self.serper_api_key env.serperPost cleaned (max_results / 2)).1
  else []

/-- The number of outbound Serper HTTP calls one `search_papers` call
makes, mirroring the guard of `enhanced_search.py` lines 49-52. -/
def serper_calls (self : EnhancedSearchEngine) (env : Env)
    (query : String) (max_results : Nat) : Nat :=
  if self.serper_api_key.isSome then
    (search_serper self.serper_api_key env.serperPost (clean_query query)
      (max_results / 2)).2
  else 0

/-- The concatenated adapter outputs of `search_papers`
(`enhanced_search.py`, lines 42-61), in adapter-invocation order. -/
def aggregate_results (self : EnhancedSearchEngine) (env : Env)
    (query : String) (max_results : Nat) : List SearchResult :=
  let cleaned := clean_query query
  convert_papers_to_results (search_arxiv env.arxivGet cleaned (max_results / 2))
    ++ serper_contribution self env cleaned max_results
    ++ search_semantic_scholar self.semantic_scholar_api_key env.semanticGet
         cleaned (max_results / 3)
    ++ search_crossref env.crossrefGet cleaned (max_results / 4)

/-- The `unique_papers` local of `search_papers` (`enhanced_search.py`,
line 64). -/
def unique_papers (self : EnhancedSearchEngine) (env : Env)
    (query : String) (max_results : Nat) : List ResearchPaper :=
  deduplicate_and_convert (aggregate_results self env query max_results) query

/-- The `scored_papers` local of `search_papers` (`enhanced_search.py`,
line 67); `none` models `calculate_relevance_scores` raising. -/
def scored_papers (self : EnhancedSearchEngine) (env : Env)
    (query : String) (max_results : Nat) : Option (List ResearchPaper) :=
  calculate_relevance_scores env.vectorize
    (unique_papers self env query max_results) query

/-- The comparison used by `sorted(..., key=lambda x: x.relevance_score,
reverse=True)`: `a` may stay before `b` when `b`'s score is not larger.
Python's sort is stable; `List.mergeSort` with this comparison is the
stable descending sort. -/
def scoreDesc (a b : ResearchPaper) : Bool :=
  decide (b.relevance_score ≤ a.relevance_score)

/-- `EnhancedSearchEngine.search_papers` (`enhanced_search.py`, lines
25-70): aggregate, deduplicate, score, sort stably by descending score,
return the first `max_results` papers and the pre-truncation count.
`none` models an exception escaping the call. -/
def search_papers (self : EnhancedSearchEngine) (env : Env)
    (query : String) (max_results : Nat) : Option (List ResearchPaper × Nat) :=
  match scored_papers self env query max_results with
  | none => none
  | some scored =>
    let sorted := scored.mergeSort scoreDesc
    some (sorted.take max_results, sorted.length)

/-- Modelled from the spec: the unigram vocabulary extraction of sklearn's
`TfidfVectorizer` (not part of the repository), i.e. the token pattern
`\b\w\w+\b` on the lowercased document minus the stop words.  Bigrams are
pairs of consecutive such tokens, so the whole vocabulary is empty exactly
when every document yields no token; `fit_transform` then raises, which
the spec calls a degenerate vocabulary. -/
def sklearnUnigrams (doc : String) : List (List Char) :=
  (splitRunsAux (fun c => !(isWordChar c)) (pyLower doc).toList []).filter
    fun w => decide (2 ≤ w.length) && !(ENGLISH_STOP_WORDS.contains (String.mk w))

/-- A Semantic Scholar paper whose title has no vectorizable term: the only
word-character run is the single letter `a`, below the two-character
minimum of the token pattern. -/
def bugPaper : S2Paper :=
  { title := "a!!", abstract := "", authors := [], year := "", url := "" }

/-- The environment of the zero-division failure: every provider fails or
is skipped except Semantic Scholar, which returns `bugPaper`; the
vectorization outcome is left as a parameter. -/
def bugEnv (vec : List String → Option (Nat → ℚ)) : Env :=
  { arxivGet := fun _ _ => none, serperPost := fun _ _ => none,
    semanticGet := fun _ _ => some [bugPaper], crossrefGet := fun _ _ => none,
    vectorize := vec }

/-- An environment in which every provider call fails; used to evaluate the
pipeline on concrete inputs. -/
def trivEnv : Env :=
  { arxivGet := fun _ _ => none, serperPost := fun _ _ => none,
    semanticGet := fun _ _ => none, crossrefGet := fun _ _ => none,
    vectorize := fun _ => none }

/-- Dot product of two real vectors (trailing entries beyond the shorter
vector are ignored, as for equal-length vectors nothing is ignored). -/
noncomputable def listDot (u v : List ℝ) : ℝ :=
  (List.zipWith (fun a b => a * b) u v).sum

/-- Euclidean norm of a real vector. -/
noncomputable def l2norm (u : List ℝ) : ℝ :=
  Real.sqrt ((u.map fun x => x ^ 2).sum)

open Classical in
/-- Modelled from the spec: `sklearn.metrics.pairwise.cosine_similarity`
(not part of the repository) between two rows, with sklearn's convention
that a zero row is left unnormalized so its similarity is 0. -/
noncomputable def cosineSim (u v : List ℝ) : ℝ :=
  if l2norm u = 0 ∨ l2norm v = 0 then 0
  else listDot u v / (l2norm u * l2norm v)

/-- Modelled from the spec: the weight sklearn's `TfidfVectorizer` (not
part of the repository) assigns to a term with raw count `tf` in a
document, document frequency `df` and corpus size `n`, with sublinear
term-frequency scaling and smoothed inverse document frequency. -/
noncomputable def tfidfWeight (tf df n : ℕ) : ℝ :=
  (if tf = 0 then 0 else 1 + Real.log tf) *
    (Real.log ((1 + n : ℝ) / (1 + df)) + 1)

/-! Lemmas about the character and token machinery. -/

theorem char_toNat_ofNat_small (n : Nat) (h : n < 55296) :
    (Char.ofNat n).toNat = n := by
  unfold Char.ofNat
  rw [dif_pos (Or.inl h)]
  simp [Char.ofNatAux, Char.toNat, UInt32.toNat]

theorem lowerChar_idem (c : Char) : lowerChar (lowerChar c) = lowerChar c := by
  unfold lowerChar
  by_cases h : 65 ≤ c.toNat ∧ c.toNat ≤ 90
  · rw [if_pos h]
    have hv : (Char.ofNat (c.toNat + 32)).toNat = c.toNat + 32 :=
      char_toNat_ofNat_small _ (by omega)
    rw [if_neg]
    intro hcon
    rw [hv] at hcon
    omega
  · rw [if_neg h, if_neg h]

theorem lowerChar_space : lowerChar ' ' = ' ' := by decide

theorem splitRunsAux_cons (sep : Char → Bool) (c : Char) (cs acc : List Char) :
    splitRunsAux sep (c :: cs) acc =
      if sep c then (if acc = [] then [] else [acc.reverse]) ++ splitRunsAux sep cs []
      else splitRunsAux sep cs (c :: acc) := rfl

theorem splitRunsAux_nil (sep : Char → Bool) (acc : List Char) :
    splitRunsAux sep [] acc = if acc = [] then [] else [acc.reverse] := rfl

theorem splitRunsAux_mem (sep : Char → Bool) :
    ∀ (l acc : List Char), (∀ c ∈ acc, sep c = false) →
      ∀ w ∈ splitRunsAux sep l acc,
        w ≠ [] ∧ ∀ c ∈ w, sep c = false ∧ (c ∈ l ∨ c ∈ acc)
  | [], acc => by
    intro hacc w hw
    rw [splitRunsAux_nil] at hw
    by_cases ha : acc = []
    · simp [ha] at hw
    · rw [if_neg ha] at hw
      simp only [List.mem_singleton] at hw
      subst hw
      refine ⟨by simpa using ha, ?_⟩
      intro c hc
      rw [List.mem_reverse] at hc
      exact ⟨hacc c hc, Or.inr hc⟩
  | a :: l, acc => by
    intro hacc w hw
    rw [splitRunsAux_cons] at hw
    by_cases hs : sep a = true
    · rw [if_pos hs] at hw
      rcases List.mem_append.1 hw with hw1 | hw2
      · by_cases ha : acc = []
        · simp [ha] at hw1
        · rw [if_neg ha] at hw1
          simp only [List.mem_singleton] at hw1
          subst hw1
          refine ⟨by simpa using ha, ?_⟩
          intro c hc
          rw [List.mem_reverse] at hc
          exact ⟨hacc c hc, Or.inr hc⟩
      · obtain ⟨hne, hall⟩ := splitRunsAux_mem sep l [] (by simp) w hw2
        refine ⟨hne, ?_⟩
        intro c hc
        obtain ⟨h1, h2⟩ := hall c hc
        refine ⟨h1, ?_⟩
        rcases h2 with h2 | h2
        · exact Or.inl (List.mem_cons_of_mem _ h2)
        · simp at h2
    · rw [if_neg hs] at hw
      have hacc' : ∀ c ∈ a :: acc, sep c = false := by
        intro c hc
        rcases List.mem_cons.1 hc with rfl | hc
        · simpa using hs
        · exact hacc c hc
      obtain ⟨hne, hall⟩ := splitRunsAux_mem sep l (a :: acc) hacc' w hw
      refine ⟨hne, ?_⟩
      intro c hc
      obtain ⟨h1, h2⟩ := hall c hc
      refine ⟨h1, ?_⟩
      rcases h2 with h2 | h2
      · exact Or.inl (List.mem_cons_of_mem _ h2)
      · rcases List.mem_cons.1 h2 with rfl | h2
        · exact Or.inl (List.mem_cons_self _ _)
        · exact Or.inr h2

theorem splitRunsAux_append (sep : Char → Bool) :
    ∀ (w : List Char), (∀ c ∈ w, sep c = false) →
      ∀ (l acc : List Char),
        splitRunsAux sep (w ++ l) acc = splitRunsAux sep l (w.reverse ++ acc)
  | [], _ => by intro l acc; simp
  | c :: w, hw => by
    intro l acc
    have hc : sep c = false := hw c (List.mem_cons_self _ _)
    have hw2 : ∀ d ∈ w, sep d = false := fun d hd => hw d (List.mem_cons_of_mem _ hd)
    have hstep : splitRunsAux sep ((c :: w) ++ l) acc
        = splitRunsAux sep (w ++ l) (c :: acc) := by
      rw [List.cons_append, splitRunsAux_cons, if_neg (by simp [hc])]
    rw [hstep, splitRunsAux_append sep w hw2 l (c :: acc)]
    congr 1
    simp

theorem splitWords_joinWords :
    ∀ (ws : List (List Char)),
      (∀ w ∈ ws, w ≠ [] ∧ ∀ c ∈ w, c.isWhitespace = false) →
      splitWords (joinWords ws) = ws
  | [] => by intro _; rfl
  | [w] => by
    intro h
    obtain ⟨hne, hnws⟩ := h w (List.mem_singleton.2 rfl)
    show splitWords (joinWords [w]) = [w]
    have hj : joinWords [w] = w := rfl
    rw [hj]
    unfold splitWords
    have hw0 : w = w ++ ([] : List Char) := by simp
    rw [hw0, splitRunsAux_append _ w (by simpa using hnws), splitRunsAux_nil]
    rw [if_neg (by simp [hne])]
    simp
  | w :: w2 :: ws => by
    intro h
    obtain ⟨hne, hnws⟩ := h w (List.mem_cons_self _ _)
    have hrest : ∀ u ∈ w2 :: ws, u ≠ [] ∧ ∀ c ∈ u, c.isWhitespace = false :=
      fun u hu => h u (List.mem_cons_of_mem _ hu)
    show splitWords (w ++ ' ' :: joinWords (w2 :: ws)) = w :: w2 :: ws
    unfold splitWords
    rw [splitRunsAux_append _ w (by simpa using hnws), splitRunsAux_cons]
    rw [if_pos (by decide), if_neg (by simp [hne])]
    have ih := splitWords_joinWords (w2 :: ws) hrest
    unfold splitWords at ih
    simp [ih]

theorem joinWords_mem :
    ∀ (ws : List (List Char)) (c : Char), c ∈ joinWords ws →
      c = ' ' ∨ ∃ w ∈ ws, c ∈ w
  | [] => by intro c hc; simp [joinWords] at hc
  | [w] => by
    intro c hc
    exact Or.inr ⟨w, List.mem_singleton.2 rfl, hc⟩
  | w :: w2 :: ws => by
    intro c hc
    have hc2 : c ∈ w ++ ' ' :: joinWords (w2 :: ws) := hc
    rcases List.mem_append.1 hc2 with h | h
    · exact Or.inr ⟨w, List.mem_cons_self _ _, h⟩
    · rcases List.mem_cons.1 h with rfl | h
      · exact Or.inl rfl
      · rcases joinWords_mem (w2 :: ws) c h with h | ⟨u, hu, hcu⟩
        · exact Or.inl h
        · exact Or.inr ⟨u, List.mem_cons_of_mem _ hu, hcu⟩

theorem queryTokens_spec (q : String) :
    ∀ w ∈ queryTokens q, w ≠ [] ∧
      ∀ c ∈ w, c.isWhitespace = false ∧ isWordChar c = true ∧ lowerChar c = c := by
  intro w hw
  have hmem := splitRunsAux_mem (fun c => c.isWhitespace)
    (punctToSpace (q.toList.map lowerChar)) [] (by simp) w hw
  obtain ⟨hne, hall⟩ := hmem
  refine ⟨hne, ?_⟩
  intro c hc
  obtain ⟨hws, hin⟩ := hall c hc
  have hws2 : c.isWhitespace = false := hws
  rcases hin with hin | hin
  · unfold punctToSpace at hin
    rw [List.map_map] at hin
    obtain ⟨c0, _, hc0⟩ := List.mem_map.1 hin
    simp only [Function.comp] at hc0
    by_cases hcase : (isWordChar (lowerChar c0) || (lowerChar c0).isWhitespace) = true
    · rw [if_pos hcase] at hc0
      subst hc0
      rcases Bool.or_eq_true_iff.1 hcase with hword | hwsl
      · exact ⟨hws2, hword, lowerChar_idem c0⟩
      · rw [hws2] at hwsl
        exact absurd hwsl (by simp)
    · rw [if_neg hcase] at hc0
      subst hc0
      exact absurd hws2 (by decide)
  · simp at hin

theorem toList_mk (l : List Char) : (String.mk l).toList = l := rfl

theorem queryTokens_clean_query (q : String)
    (h : ¬ (filtered_words q).length < 2) :
    queryTokens (clean_query q) = filtered_words q := by
  have hcq : clean_query q = String.mk (joinWords (filtered_words q)) := by
    rw [clean_query, if_neg h]
  set F := filtered_words q with hF
  have hFsub : ∀ w ∈ F, w ∈ queryTokens q := by
    intro w hw
    exact List.mem_of_mem_filter hw
  have hFgood : ∀ w ∈ F, w ≠ [] ∧ ∀ c ∈ w, c.isWhitespace = false := by
    intro w hw
    obtain ⟨hne, hall⟩ := queryTokens_spec q w (hFsub w hw)
    exact ⟨hne, fun c hc => (hall c hc).1⟩
  have hchars : ∀ c ∈ joinWords F, lowerChar c = c ∧ (isWordChar c || c.isWhitespace) = true := by
    intro c hc
    rcases joinWords_mem F c hc with rfl | ⟨w, hw, hcw⟩
    · exact ⟨lowerChar_space, by decide⟩
    · obtain ⟨hne, hall⟩ := queryTokens_spec q w (hFsub w hw)
      obtain ⟨h1, h2, h3⟩ := hall c hcw
      exact ⟨h3, by simp [h2]⟩
  rw [hcq]
  unfold queryTokens
  rw [toList_mk]
  have hmap : (joinWords F).map lowerChar = joinWords F := by
    rw [List.map_congr_left (fun c hc => (hchars c hc).1)]
    exact List.map_id _
  rw [hmap]
  have hpunct : punctToSpace (joinWords F) = joinWords F := by
    unfold punctToSpace
    rw [List.map_congr_left (fun c hc => if_pos ((hchars c hc).2))]
    exact List.map_id _
  rw [hpunct]
  exact splitWords_joinWords F hFgood

/-- C8: the short-query guard of `clean_query`: when fewer than 2 tokens
survive the filter, the original raw query is returned verbatim
(`base_search.py`, lines 71-73). -/
theorem short_query_guard (q : String)
    (h : (filtered_words q).length < 2) : clean_query q = q := by
  rw [clean_query, if_pos h]

/-- Witness for C8 at the spec's own example: normalizing the raw query
AI leaves fewer than 2 tokens, so the output is exactly AI. -/
theorem short_query_guard_witness :
    (filtered_words "AI").length < 2 ∧ clean_query "AI" = "AI" :=
  ⟨by decide, short_query_guard "AI" (by decide)⟩

/-- C9: a token of the query that belongs to the fixed academic allowlist
is never removed by normalization: it is still a token of the cleaned
query, whether or not it is also a generic stop word (`base_search.py`,
lines 66-69: the allowlist disjunct overrides the stop-word test, and
every allowlist entry is longer than 2 characters). -/
theorem academic_keyword_preserved (kw : String) (q : String)
    (hkw : kw ∈ academic_keywords) (hq : kw ∈ tokensOf q) :
    kw ∈ tokensOf (clean_query q) := by
  by_cases h : (filtered_words q).length < 2
  · rw [clean_query, if_pos h]
    exact hq
  · unfold tokensOf at hq ⊢
    rw [queryTokens_clean_query q h]
    obtain ⟨w, hw, hwkw⟩ := List.mem_map.1 hq
    refine List.mem_map.2 ⟨w, ?_, hwkw⟩
    rw [filtered_words, List.mem_filter]
    refine ⟨hw, ?_⟩
    have hlen : 2 < w.length := by
      have hlkw : 2 < kw.length := by
        have : ∀ s ∈ academic_keywords, 2 < s.length := by decide
        exact this kw hkw
      have : kw.length = w.length := by rw [← hwkw]; rfl
      omega
    simp only [Bool.and_eq_true, decide_eq_true_eq, Bool.or_eq_true,
      Bool.not_eq_true']
    refine ⟨hlen, Or.inr ?_⟩
    rw [hwkw]
    exact List.elem_eq_true_of_mem hkw

/-- Witness for C9: the allowlisted token neural (also a plausible
stop-word candidate) survives normalization of a concrete query. -/
theorem academic_keyword_preserved_witness :
    "neural" ∈ academic_keywords ∧ "neural" ∈ tokensOf "the neural networks" ∧
      "neural" ∈ tokensOf (clean_query "the neural networks") :=
  ⟨by decide, by decide,
    academic_keyword_preserved "neural" "the neural networks" (by decide) (by decide)⟩

/-! Lemmas about the deduplicators. -/

theorem dedupAux_nil {α : Type} (titleOf : α → String) (seen : List (List Char)) :
    dedupAux titleOf seen [] = [] := rfl

theorem dedupAux_cons {α : Type} (titleOf : α → String) (seen : List (List Char))
    (x : α) (xs : List α) :
    dedupAux titleOf seen (x :: xs) =
      if titleOf x = "" then dedupAux titleOf seen xs
      else
        if normTitleKey (titleOf x) ≠ [] ∧ normTitleKey (titleOf x) ∉ seen then
          x :: dedupAux titleOf (normTitleKey (titleOf x) :: seen) xs
        else dedupAux titleOf seen xs := rfl

theorem normTitleKey_empty : normTitleKey "" = [] := rfl

theorem dedupAux_mem_spec {α : Type} (titleOf : α → String) :
    ∀ (xs : List α) (seen : List (List Char)) (x : α),
      x ∈ dedupAux titleOf seen xs →
      normTitleKey (titleOf x) ≠ [] ∧ normTitleKey (titleOf x) ∉ seen
  | [], seen => by intro x hx; simp [dedupAux_nil] at hx
  | y :: xs, seen => by
    intro x hx
    rw [dedupAux_cons] at hx
    by_cases h1 : titleOf y = ""
    · rw [if_pos h1] at hx
      exact dedupAux_mem_spec titleOf xs seen x hx
    · rw [if_neg h1] at hx
      by_cases h2 : normTitleKey (titleOf y) ≠ [] ∧ normTitleKey (titleOf y) ∉ seen
      · rw [if_pos h2] at hx
        rcases List.mem_cons.1 hx with rfl | hx
        · exact h2
        · obtain ⟨ha, hb⟩ :=
            dedupAux_mem_spec titleOf xs (normTitleKey (titleOf y) :: seen) x hx
          exact ⟨ha, fun hc => hb (List.mem_cons_of_mem _ hc)⟩
      · rw [if_neg h2] at hx
        exact dedupAux_mem_spec titleOf xs seen x hx

theorem dedupAux_keys_nodup {α : Type} (titleOf : α → String) :
    ∀ (xs : List α) (seen : List (List Char)),
      ((dedupAux titleOf seen xs).map fun x => normTitleKey (titleOf x)).Nodup
  | [], seen => by simp [dedupAux_nil]
  | y :: xs, seen => by
    rw [dedupAux_cons]
    by_cases h1 : titleOf y = ""
    · rw [if_pos h1]
      exact dedupAux_keys_nodup titleOf xs seen
    · rw [if_neg h1]
      by_cases h2 : normTitleKey (titleOf y) ≠ [] ∧ normTitleKey (titleOf y) ∉ seen
      · rw [if_pos h2]
        rw [List.map_cons, List.nodup_cons]
        refine ⟨?_, dedupAux_keys_nodup titleOf xs _⟩
        intro hmem
        obtain ⟨z, hz, hzk⟩ := List.mem_map.1 hmem
        obtain ⟨-, hnot⟩ :=
          dedupAux_mem_spec titleOf xs (normTitleKey (titleOf y) :: seen) z hz
        exact hnot (by rw [hzk]; exact List.mem_cons_self _ _)
      · rw [if_neg h2]
        exact dedupAux_keys_nodup titleOf xs seen

theorem dedupAux_noop {α : Type} (titleOf : α → String) :
    ∀ (xs : List α) (seen : List (List Char)),
      (∀ x ∈ xs, normTitleKey (titleOf x) ≠ [] ∧ normTitleKey (titleOf x) ∉ seen) →
      ((xs.map fun x => normTitleKey (titleOf x)).Nodup) →
      dedupAux titleOf seen xs = xs
  | [], seen => by intro _ _; rfl
  | y :: xs, seen => by
    intro hall hnodup
    obtain ⟨hk, hs⟩ := hall y (List.mem_cons_self _ _)
    have hty : ¬ titleOf y = "" := by
      intro h
      rw [h, normTitleKey_empty] at hk
      exact hk rfl
    rw [dedupAux_cons, if_neg hty, if_pos ⟨hk, hs⟩]
    rw [List.map_cons, List.nodup_cons] at hnodup
    congr 1
    apply dedupAux_noop titleOf xs
    · intro x hx
      obtain ⟨ha, hb⟩ := hall x (List.mem_cons_of_mem _ hx)
      refine ⟨ha, ?_⟩
      intro hc
      rcases List.mem_cons.1 hc with hc | hc
      · exact hnodup.1 (List.mem_map.2 ⟨x, hx, hc⟩)
      · exact hb hc
    · exact hnodup.2

theorem dedupAux_sublist {α : Type} (titleOf : α → String) :
    ∀ (xs : List α) (seen : List (List Char)), List.Sublist (dedupAux titleOf seen xs) xs
  | [], seen => by simp [dedupAux_nil]
  | y :: xs, seen => by
    rw [dedupAux_cons]
    by_cases h1 : titleOf y = ""
    · rw [if_pos h1]
      exact (dedupAux_sublist titleOf xs seen).cons _
    · rw [if_neg h1]
      by_cases h2 : normTitleKey (titleOf y) ≠ [] ∧ normTitleKey (titleOf y) ∉ seen
      · rw [if_pos h2]
        exact (dedupAux_sublist titleOf xs _).cons₂ _
      · rw [if_neg h2]
        exact (dedupAux_sublist titleOf xs seen).cons _

theorem dedupAux_filter_seen {α : Type} (titleOf : α → String) :
    ∀ (xs : List α) (seen : List (List Char)) (k : List Char), k ∈ seen →
      (dedupAux titleOf seen xs).filter
        (fun x => decide (normTitleKey (titleOf x) = k)) = []
  | [], seen => by intro k _; simp [dedupAux_nil]
  | y :: xs, seen => by
    intro k hk
    rw [dedupAux_cons]
    by_cases h1 : titleOf y = ""
    · rw [if_pos h1]
      exact dedupAux_filter_seen titleOf xs seen k hk
    · rw [if_neg h1]
      by_cases h2 : normTitleKey (titleOf y) ≠ [] ∧ normTitleKey (titleOf y) ∉ seen
      · rw [if_pos h2]
        rw [List.filter_cons]
        have hne : normTitleKey (titleOf y) ≠ k := by
          intro h
          exact h2.2 (h ▸ hk)
        rw [if_neg (by simpa using hne)]
        exact dedupAux_filter_seen titleOf xs _ k (List.mem_cons_of_mem _ hk)
      · rw [if_neg h2]
        exact dedupAux_filter_seen titleOf xs seen k hk

theorem dedupAux_filter_key {α : Type} (titleOf : α → String) :
    ∀ (xs : List α) (seen : List (List Char)) (k : List Char), k ≠ [] → k ∉ seen →
      (dedupAux titleOf seen xs).filter
          (fun x => decide (normTitleKey (titleOf x) = k)) =
        (xs.filter fun x => decide (normTitleKey (titleOf x) = k)).take 1
  | [], seen => by intro k _ _; simp [dedupAux_nil]
  | y :: xs, seen => by
    intro k hk hks
    rw [dedupAux_cons]
    by_cases h1 : titleOf y = ""
    · rw [if_pos h1]
      have hky : normTitleKey (titleOf y) ≠ k := by
        rw [h1, normTitleKey_empty]
        exact fun h => hk h.symm
      rw [List.filter_cons, if_neg (by simpa using hky)]
      exact dedupAux_filter_key titleOf xs seen k hk hks
    · rw [if_neg h1]
      by_cases h2 : normTitleKey (titleOf y) ≠ [] ∧ normTitleKey (titleOf y) ∉ seen
      · rw [if_pos h2]
        by_cases h3 : normTitleKey (titleOf y) = k
        · rw [List.filter_cons, if_pos (by simpa using h3)]
          rw [List.filter_cons, if_pos (by simpa using h3)]
          rw [dedupAux_filter_seen titleOf xs _ k (by rw [← h3]; exact List.mem_cons_self _ _)]
          simp
        · rw [List.filter_cons, if_neg (by simpa using h3)]
          rw [List.filter_cons, if_neg (by simpa using h3)]
          apply dedupAux_filter_key titleOf xs _ k hk
          intro hc
          rcases List.mem_cons.1 hc with hc | hc
          · exact h3 hc.symm
          · exact hks hc
      · rw [if_neg h2]
        have hky : normTitleKey (titleOf y) ≠ k := by
          intro h
          rcases not_and_or.1 h2 with h2 | h2
          · rw [not_not.1 h2] at h
            exact hk h.symm
          · rw [h] at h2
            exact absurd (not_not.1 h2) hks
        rw [List.filter_cons, if_neg (by simpa using hky)]
        exact dedupAux_filter_key titleOf xs seen k hk hks

theorem lowerChar_ws (c : Char) (h : c.isWhitespace = true) : lowerChar c = c := by
  have h2 : ((c = ' ' ∨ c = '\t') ∨ c = '\r') ∨ c = '\n' := by
    simpa [Char.isWhitespace] using h
  rcases h2 with ((rfl | rfl) | rfl) | rfl <;> decide

theorem ws_only_key_empty (t : String)
    (h : ∀ c ∈ t.toList, c.isWhitespace = true) : normTitleKey t = [] := by
  unfold normTitleKey
  have h1 : t.toList.map lowerChar = t.toList := by
    rw [List.map_congr_left (fun c hc => lowerChar_ws c (h c hc))]
    exact List.map_id _
  rw [h1]
  unfold trimWs
  have hdw : (t.toList.filter fun c => isWordChar c || c.isWhitespace).dropWhile
      (fun c => c.isWhitespace) = [] := by
    rw [List.dropWhile_eq_nil_iff]
    intro x hx
    exact h x (List.mem_of_mem_filter hx)
  rw [hdw]
  simp

/-- C6: deduplication is idempotent, and any two results whose titles agree
up to case and punctuation (equal non-empty normalized keys) collapse to a
single surviving entry, namely the first encountered: among the elements
with a given key, exactly the first input occurrence survives
(`base_search.py`, lines 117-140). -/
theorem dedupe_idempotent_and_collapse :
    (∀ xs : List ResearchPaper,
        deduplicate_papers (deduplicate_papers xs) = deduplicate_papers xs)
    ∧ ∀ (xs : List ResearchPaper) (k : List Char), k ≠ [] →
        (deduplicate_papers xs).filter (fun p => decide (normTitleKey p.title = k)) =
          (xs.filter fun p => decide (normTitleKey p.title = k)).take 1 := by
  constructor
  · intro xs
    unfold deduplicate_papers
    apply dedupAux_noop
    · intro x hx
      exact dedupAux_mem_spec _ xs [] x hx
    · exact dedupAux_keys_nodup _ xs []
  · intro xs k hk
    exact dedupAux_filter_key _ xs [] k hk (by simp)

/-- Witness for C6 at the spec's example pair of titles differing only by
case and punctuation: the first occurrence is the single survivor. -/
theorem dedupe_idempotent_and_collapse_witness :
    normTitleKey "Attention Is All You Need" ≠ [] ∧
      (deduplicate_papers
          [⟨"Attention Is All You Need", [], "", "", "", [], 0, []⟩,
           ⟨"attention is all you need!", [], "", "", "", [], 0, []⟩]).filter
          (fun p => decide (normTitleKey p.title = normTitleKey "Attention Is All You Need")) =
        ([⟨"Attention Is All You Need", [], "", "", "", [], 0, []⟩,
          ⟨"attention is all you need!", [], "", "", "", [], 0, []⟩].filter
           fun p => decide (normTitleKey p.title = normTitleKey "Attention Is All You Need")).take 1 :=
  ⟨by decide, dedupe_idempotent_and_collapse.2 _ _ (by decide)⟩

/-- C7: for every input to `_deduplicate_and_convert`
(`enhanced_search.py`, lines 305-329): the output converts a sublist of the
input (surviving elements keep their relative order); every output element
has a non-empty normalized title key, and a result whose title is empty or
whitespace-only has an empty key, hence is absent; and for every key the
first input occurrence survives while all later equal-key results are
dropped. -/
theorem dedupe_first_occurrence_stable :
    ∀ (xs : List SearchResult) (q : String),
      List.Sublist (dedupAux (fun r => r.title) [] xs) xs
      ∧ deduplicate_and_convert xs q = (dedupAux (fun r => r.title) [] xs).map resultToPaper
      ∧ (∀ p ∈ deduplicate_and_convert xs q, normTitleKey p.title ≠ [])
      ∧ (∀ t : String, (∀ c ∈ t.toList, c.isWhitespace = true) → normTitleKey t = [])
      ∧ ∀ k : List Char, k ≠ [] →
          (dedupAux (fun r => r.title) [] xs).filter
              (fun r => decide (normTitleKey r.title = k)) =
            (xs.filter fun r => decide (normTitleKey r.title = k)).take 1 := by
  intro xs q
  refine ⟨dedupAux_sublist _ xs [], rfl, ?_, ws_only_key_empty,
    fun k hk => dedupAux_filter_key _ xs [] k hk (by simp)⟩
  intro p hp
  obtain ⟨r, hr, hrp⟩ := List.mem_map.1 hp
  have hkey : normTitleKey r.title ≠ [] := (dedupAux_mem_spec _ xs [] r hr).1
  rw [← hrp]
  exact hkey

/-- Witness for C7: a three-element input with a whitespace-only title and
a cross-provider duplicate; only the first occurrence survives, converted. -/
theorem dedupe_first_occurrence_stable_witness :
    deduplicate_and_convert
        [⟨"Deep Residual Learning", "u1", "s1", "arxiv", "", [], 0⟩,
         ⟨"   ", "u2", "s2", "serper", "", [], 0⟩,
         ⟨"deep residual learning!", "u3", "s3", "crossref", "", [], 0⟩] "q" =
      [resultToPaper ⟨"Deep Residual Learning", "u1", "s1", "arxiv", "", [], 0⟩] ∧
    normTitleKey "   " = [] ∧
    (dedupAux (fun r => r.title) []
        ([⟨"Deep Residual Learning", "u1", "s1", "arxiv", "", [], 0⟩,
          ⟨"   ", "u2", "s2", "serper", "", [], 0⟩,
          ⟨"deep residual learning!", "u3", "s3", "crossref", "", [], 0⟩] :
          List SearchResult)).filter
        (fun r => decide (normTitleKey r.title = normTitleKey "Deep Residual Learning")) =
      (([⟨"Deep Residual Learning", "u1", "s1", "arxiv", "", [], 0⟩,
         ⟨"   ", "u2", "s2", "serper", "", [], 0⟩,
         ⟨"deep residual learning!", "u3", "s3", "crossref", "", [], 0⟩] :
         List SearchResult).filter
         fun r => decide (normTitleKey r.title = normTitleKey "Deep Residual Learning")).take 1 :=
  ⟨by decide,
   (dedupe_first_occurrence_stable [] "q").2.2.2.1 "   " (by decide),
   (dedupe_first_occurrence_stable
      ([⟨"Deep Residual Learning", "u1", "s1", "arxiv", "", [], 0⟩,
        ⟨"   ", "u2", "s2", "serper", "", [], 0⟩,
        ⟨"deep residual learning!", "u3", "s3", "crossref", "", [], 0⟩] :
        List SearchResult) "q").2.2.2.2
     (normTitleKey "Deep Residual Learning") (by decide)⟩

/-! Lemmas about the relevance ranker. -/

theorem listSumSq_nonneg (u : List ℝ) : 0 ≤ (u.map fun x => x ^ 2).sum := by
  apply List.sum_nonneg
  intro x hx
  obtain ⟨y, -, rfl⟩ := List.mem_map.1 hx
  positivity

theorem listDot_nonneg :
    ∀ (u v : List ℝ), (∀ x ∈ u, 0 ≤ x) → (∀ x ∈ v, 0 ≤ x) → 0 ≤ listDot u v
  | [], v => by intro _ _; simp [listDot]
  | a :: u, [] => by intro _ _; simp [listDot]
  | a :: u, b :: v => by
    intro hu hv
    have ha : 0 ≤ a := hu a (List.mem_cons_self _ _)
    have hb : 0 ≤ b := hv b (List.mem_cons_self _ _)
    have ih := listDot_nonneg u v (fun x hx => hu x (List.mem_cons_of_mem _ hx))
      (fun x hx => hv x (List.mem_cons_of_mem _ hx))
    have hcons : listDot (a :: u) (b :: v) = a * b + listDot u v := by
      simp [listDot]
    rw [hcons]
    have := mul_nonneg ha hb
    linarith

theorem listDot_le_norms : ∀ (u v : List ℝ), listDot u v ≤ l2norm u * l2norm v
  | [], v => by
    simp [listDot, l2norm, Real.sqrt_nonneg, listSumSq_nonneg]
  | a :: u, [] => by
    simp [listDot, l2norm]
  | a :: u, b :: v => by
    have ih := listDot_le_norms u v
    have hcons : listDot (a :: u) (b :: v) = a * b + listDot u v := by
      simp [listDot]
    have hnu : l2norm (a :: u) = Real.sqrt (a ^ 2 + (u.map fun x => x ^ 2).sum) := by
      simp [l2norm]
    have hnv : l2norm (b :: v) = Real.sqrt (b ^ 2 + (v.map fun x => x ^ 2).sum) := by
      simp [l2norm]
    rw [hcons, hnu, hnv]
    set su := (u.map fun x => x ^ 2).sum with hsu
    set sv := (v.map fun x => x ^ 2).sum with hsv
    have hsu0 : 0 ≤ su := listSumSq_nonneg u
    have hsv0 : 0 ≤ sv := listSumSq_nonneg v
    have e1 : Real.sqrt (a ^ 2 + su) ^ 2 = a ^ 2 + su := Real.sq_sqrt (by positivity)
    have e2 : Real.sqrt (b ^ 2 + sv) ^ 2 = b ^ 2 + sv := Real.sq_sqrt (by positivity)
    have e3 : Real.sqrt su ^ 2 = su := Real.sq_sqrt hsu0
    have e4 : Real.sqrt sv ^ 2 = sv := Real.sq_sqrt hsv0
    have hl2u : l2norm u = Real.sqrt su := by simp [l2norm]
    have hl2v : l2norm v = Real.sqrt sv := by simp [l2norm]
    rw [hl2u, hl2v] at ih
    have hkey : a * b + Real.sqrt su * Real.sqrt sv ≤
        Real.sqrt (a ^ 2 + su) * Real.sqrt (b ^ 2 + sv) := by
      have hsq : (a * b + Real.sqrt su * Real.sqrt sv) ^ 2 ≤
          (Real.sqrt (a ^ 2 + su) * Real.sqrt (b ^ 2 + sv)) ^ 2 := by
        have hexpand : (Real.sqrt (a ^ 2 + su) * Real.sqrt (b ^ 2 + sv)) ^ 2 =
            (a ^ 2 + Real.sqrt su ^ 2) * (b ^ 2 + Real.sqrt sv ^ 2) := by
          rw [mul_pow, e1, e2, e3, e4]
        rw [hexpand]
        nlinarith [sq_nonneg (a * Real.sqrt sv - b * Real.sqrt su)]
      have hpos : 0 ≤ Real.sqrt (a ^ 2 + su) * Real.sqrt (b ^ 2 + sv) :=
        mul_nonneg (Real.sqrt_nonneg _) (Real.sqrt_nonneg _)
      nlinarith [hsq, hpos]
    linarith

theorem cosineSim_mem_unit (u v : List ℝ)
    (hu : ∀ x ∈ u, 0 ≤ x) (hv : ∀ x ∈ v, 0 ≤ x) :
    0 ≤ cosineSim u v ∧ cosineSim u v ≤ 1 := by
  unfold cosineSim
  split_ifs with h
  · exact ⟨le_refl 0, zero_le_one⟩
  · push_neg at h
    have hu0 : 0 < l2norm u := lt_of_le_of_ne (Real.sqrt_nonneg _) (Ne.symm h.1)
    have hv0 : 0 < l2norm v := lt_of_le_of_ne (Real.sqrt_nonneg _) (Ne.symm h.2)
    constructor
    · exact div_nonneg (listDot_nonneg u v hu hv) (by positivity)
    · rw [div_le_one (by positivity)]
      exact listDot_le_norms u v

theorem tfidfWeight_nonneg (tf df n : ℕ) (h : df ≤ n) : 0 ≤ tfidfWeight tf df n := by
  unfold tfidfWeight
  apply mul_nonneg
  · split_ifs with htf
    · exact le_refl 0
    · have h1 : (1 : ℝ) ≤ (tf : ℝ) := by
        exact_mod_cast Nat.one_le_iff_ne_zero.2 htf
      have := Real.log_nonneg h1
      linarith
  · have h1 : (1 : ℝ) ≤ (1 + (n : ℝ)) / (1 + (df : ℝ)) := by
      rw [le_div_iff₀ (by positivity)]
      have : (df : ℝ) ≤ (n : ℝ) := by exact_mod_cast h
      linarith
    have := Real.log_nonneg h1
    linarith

theorem calculate_relevance_scores_cases
    (vec : List String → Option (Nat → ℚ)) (papers : List ResearchPaper)
    (query : String) (out : List ResearchPaper)
    (hne : papers ≠ [])
    (h : calculate_relevance_scores vec papers query = some out) :
    (∃ sims, vec (documentsOf papers query) = some sims ∧ out = setScores papers sims)
    ∨ (vec (documentsOf papers query) = none ∧ (queryKeywords query).length ≠ 0 ∧
        out = papers.map fun p => { p with relevance_score := fallbackScoreOf query p }) := by
  unfold calculate_relevance_scores at h
  rw [if_neg hne] at h
  cases hv : vec (documentsOf papers query) with
  | some sims =>
    rw [hv] at h
    exact Or.inl ⟨sims, rfl, (Option.some_injective _ h).symm⟩
  | none =>
    rw [hv] at h
    unfold fallbackScores at h
    by_cases hq : (queryKeywords query).length = 0
    · rw [if_pos hq] at h
      exact absurd h (by simp)
    · rw [if_neg hq] at h
      exact Or.inr ⟨rfl, hq, (Option.some_injective _ h).symm⟩

theorem calculate_relevance_scores_length
    (vec : List String → Option (Nat → ℚ)) (papers : List ResearchPaper)
    (query : String) (out : List ResearchPaper)
    (h : calculate_relevance_scores vec papers query = some out) :
    out.length = papers.length := by
  by_cases hne : papers = []
  · subst hne
    unfold calculate_relevance_scores at h
    rw [if_pos rfl] at h
    rw [← Option.some_injective _ h]
  · rcases calculate_relevance_scores_cases vec papers query out hne h with
      ⟨sims, -, rfl⟩ | ⟨-, -, rfl⟩
    · simp [setScores]
    · simp

/-- C5: one ranking call never mixes the two metrics: either every output
score is the cosine similarity the vectorizer returned for its position, or
the vectorization failed and every output score is the keyword-overlap
fallback score of its paper (`base_search.py`, lines 97-113: the whole
batch is scored in the `try` arm, or the whole batch in the `except` arm). -/
theorem ranking_no_metric_mixing
    (vec : List String → Option (Nat → ℚ)) (papers : List ResearchPaper)
    (query : String) (out : List ResearchPaper)
    (hne : papers ≠ [])
    (h : calculate_relevance_scores vec papers query = some out) :
    (∃ sims, vec (documentsOf papers query) = some sims ∧
        ∀ (i : Nat) (hi : i < out.length),
          (out.get ⟨i, hi⟩).relevance_score = sims i)
    ∨ (vec (documentsOf papers query) = none ∧
        ∀ (i : Nat) (hi : i < out.length) (hp : i < papers.length),
          (out.get ⟨i, hi⟩).relevance_score =
            fallbackScoreOf query (papers.get ⟨i, hp⟩)) := by
  rcases calculate_relevance_scores_cases vec papers query out hne h with
    ⟨sims, hvec, rfl⟩ | ⟨hvec, -, rfl⟩
  · refine Or.inl ⟨sims, hvec, ?_⟩
    intro i hi
    simp [setScores]
  · refine Or.inr ⟨hvec, ?_⟩
    intro i hi hp
    simp

/-- Witness for C5: a one-paper batch under a failing vectorization; the
single output score is the fallback score. -/
theorem ranking_no_metric_mixing_witness :
    (([⟨"hello", [], "", "", "", [], 0, []⟩] : List ResearchPaper) ≠ []) ∧
    calculate_relevance_scores (fun _ => none)
        [⟨"hello", [], "", "", "", [], 0, []⟩] "hello" =
      some [⟨"hello", [], "", "", "", [],
        fallbackScoreOf "hello" ⟨"hello", [], "", "", "", [], 0, []⟩, []⟩] ∧
    ((∃ sims, (none : Option (Nat → ℚ)) = some sims ∧
        ∀ (i : Nat) (hi : i < ([⟨"hello", [], "", "", "", [],
            fallbackScoreOf "hello" ⟨"hello", [], "", "", "", [], 0, []⟩, []⟩] :
            List ResearchPaper).length),
          (([⟨"hello", [], "", "", "", [],
            fallbackScoreOf "hello" ⟨"hello", [], "", "", "", [], 0, []⟩, []⟩] :
            List ResearchPaper).get ⟨i, hi⟩).relevance_score = sims i)
    ∨ ((none : Option (Nat → ℚ)) = none ∧
        ∀ (i : Nat) (hi : i < ([⟨"hello", [], "", "", "", [],
            fallbackScoreOf "hello" ⟨"hello", [], "", "", "", [], 0, []⟩, []⟩] :
            List ResearchPaper).length)
          (hp : i < ([⟨"hello", [], "", "", "", [], 0, []⟩] :
            List ResearchPaper).length),
          (([⟨"hello", [], "", "", "", [],
            fallbackScoreOf "hello" ⟨"hello", [], "", "", "", [], 0, []⟩, []⟩] :
            List ResearchPaper).get ⟨i, hi⟩).relevance_score =
            fallbackScoreOf "hello" (([⟨"hello", [], "", "", "", [], 0, []⟩] :
              List ResearchPaper).get ⟨i, hp⟩))) :=
  ⟨by decide, rfl,
    ranking_no_metric_mixing (fun _ => none) _ "hello" _ (by decide) rfl⟩

theorem fallbackScoreOf_bounds (query : String) (p : ResearchPaper)
    (hq : (queryKeywords query).length ≠ 0) :
    0 ≤ fallbackScoreOf query p ∧ fallbackScoreOf query p ≤ 1 := by
  unfold fallbackScoreOf
  simp only []
  constructor
  · positivity
  · rw [div_le_one (by exact_mod_cast Nat.pos_of_ne_zero hq)]
    exact_mod_cast List.length_filter_le _ _

theorem scoreDesc_trans :
    ∀ a b c : ResearchPaper, scoreDesc a b → scoreDesc b c → scoreDesc a c := by
  intro a b c hab hbc
  simp only [scoreDesc, decide_eq_true_eq] at hab hbc ⊢
  exact le_trans hbc hab

theorem scoreDesc_total : ∀ a b : ResearchPaper, scoreDesc a b || scoreDesc b a := by
  intro a b
  simp only [scoreDesc, Bool.or_eq_true, decide_eq_true_eq]
  exact le_total _ _

theorem search_papers_eq (self : EnhancedSearchEngine) (env : Env)
    (query : String) (k : Nat) (scored : List ResearchPaper)
    (h : scored_papers self env query k = some scored) :
    search_papers self env query k =
      some ((scored.mergeSort scoreDesc).take k,
        (scored.mergeSort scoreDesc).length) := by
  unfold search_papers
  rw [h]

/-- C2: the ranker populates every output score (each output paper is its
input paper with only the relevance score replaced); fallback-path scores
lie in [0,1] (ratio of matched distinct keywords); the cosine-similarity
metric over TF-IDF vectors lies in [0,1] (nonnegative vectors, modelled
over the reals since sklearn is external); and `search_papers` emits the
scored batch sorted by descending score with a stable sort, so any
descending-sorted sublist of the pre-sort (aggregation-order) batch is
still a sublist of the output order. -/
theorem ranking_bounds_and_stable_sort :
    (∀ (papers : List ResearchPaper) (query : String) (out : List ResearchPaper),
        fallbackScores papers query = some out →
        ∀ p ∈ out, 0 ≤ p.relevance_score ∧ p.relevance_score ≤ 1)
    ∧ (∀ u v : List ℝ, (∀ x ∈ u, 0 ≤ x) → (∀ x ∈ v, 0 ≤ x) →
        0 ≤ cosineSim u v ∧ cosineSim u v ≤ 1)
    ∧ (∀ tf df n : ℕ, df ≤ n → 0 ≤ tfidfWeight tf df n)
    ∧ (∀ (vec : List String → Option (Nat → ℚ)) (papers : List ResearchPaper)
        (query : String) (out : List ResearchPaper),
        calculate_relevance_scores vec papers query = some out →
        out.length = papers.length ∧
        ∀ (i : Nat) (h1 : i < out.length) (h2 : i < papers.length),
          out.get ⟨i, h1⟩ =
            { papers.get ⟨i, h2⟩ with
                relevance_score := (out.get ⟨i, h1⟩).relevance_score })
    ∧ ∀ (self : EnhancedSearchEngine) (env : Env) (query : String) (k : Nat)
        (ps : List ResearchPaper) (total : Nat) (scored : List ResearchPaper),
        scored_papers self env query k = some scored →
        search_papers self env query k = some (ps, total) →
        ps = (scored.mergeSort scoreDesc).take k
        ∧ (scored.mergeSort scoreDesc).Pairwise
            (fun a b => b.relevance_score ≤ a.relevance_score)
        ∧ ∀ c : List ResearchPaper, c.Pairwise (fun a b => scoreDesc a b = true) →
            List.Sublist c scored → List.Sublist c (scored.mergeSort scoreDesc) := by
  refine ⟨?_, ?_, ?_, ?_, ?_⟩
  · intro papers query out h p hp
    unfold fallbackScores at h
    by_cases hq : (queryKeywords query).length = 0
    · rw [if_pos hq] at h
      exact absurd h (by simp)
    · rw [if_neg hq] at h
      rw [← Option.some_injective _ h] at hp
      obtain ⟨q, -, rfl⟩ := List.mem_map.1 hp
      exact fallbackScoreOf_bounds query q hq
  · exact cosineSim_mem_unit
  · exact tfidfWeight_nonneg
  · intro vec papers query out h
    by_cases hne : papers = []
    · subst hne
      unfold calculate_relevance_scores at h
      rw [if_pos rfl] at h
      rw [← Option.some_injective _ h]
      exact ⟨rfl, fun i h1 h2 => absurd h2 (by simp)⟩
    · rcases calculate_relevance_scores_cases vec papers query out hne h with
        ⟨sims, -, rfl⟩ | ⟨-, -, rfl⟩
      · refine ⟨by simp [setScores], ?_⟩
        intro i h1 h2
        simp [setScores]
      · refine ⟨by simp, ?_⟩
        intro i h1 h2
        simp
  · intro self env query k ps total scored hscored hsearch
    have heq := search_papers_eq self env query k scored hscored
    rw [hsearch] at heq
    have hps : ps = (scored.mergeSort scoreDesc).take k :=
      congrArg Prod.fst (Option.some_injective _ heq)
    refine ⟨hps, ?_, ?_⟩
    · exact (List.sorted_mergeSort scoreDesc_trans scoreDesc_total scored).imp
        (fun h => by simpa [scoreDesc, decide_eq_true_eq] using h)
    · intro c hc hsub
      exact List.sublist_mergeSort scoreDesc_trans scoreDesc_total hc hsub

/-- Witness for C2: concrete instances of each conjunct — a fallback-scored
one-paper batch, a concrete nonnegative vector pair, a concrete TF-IDF
weight, a cosine-path scoring call, and the trivial-environment pipeline
run. -/
theorem ranking_bounds_and_stable_sort_witness :
    (fallbackScores [⟨"hello", [], "", "", "", [], 0, []⟩] "hello" =
        some [⟨"hello", [], "", "", "", [],
          fallbackScoreOf "hello" ⟨"hello", [], "", "", "", [], 0, []⟩, []⟩] ∧
      ∀ p ∈ ([⟨"hello", [], "", "", "", [],
          fallbackScoreOf "hello" ⟨"hello", [], "", "", "", [], 0, []⟩, []⟩] :
          List ResearchPaper),
        0 ≤ p.relevance_score ∧ p.relevance_score ≤ 1)
    ∧ ((∀ x ∈ ([1, 2] : List ℝ), 0 ≤ x) ∧ (∀ x ∈ ([0, 3] : List ℝ), 0 ≤ x) ∧
        0 ≤ cosineSim [1, 2] [0, 3] ∧ cosineSim [1, 2] [0, 3] ≤ 1)
    ∧ ((1 : ℕ) ≤ 3 ∧ 0 ≤ tfidfWeight 2 1 3)
    ∧ (calculate_relevance_scores (fun _ => some fun _ => 1 / 2)
          [⟨"hello", [], "", "", "", [], 0, []⟩] "hi" =
        some [⟨"hello", [], "", "", "", [], 1 / 2, []⟩] ∧
      ([⟨"hello", [], "", "", "", [], (1 : ℚ) / 2, []⟩] :
          List ResearchPaper).length =
        ([⟨"hello", [], "", "", "", [], 0, []⟩] : List ResearchPaper).length ∧
      ∀ (i : Nat)
        (h1 : i < ([⟨"hello", [], "", "", "", [], (1 : ℚ) / 2, []⟩] :
          List ResearchPaper).length)
        (h2 : i < ([⟨"hello", [], "", "", "", [], 0, []⟩] :
          List ResearchPaper).length),
        (([⟨"hello", [], "", "", "", [], (1 : ℚ) / 2, []⟩] :
          List ResearchPaper).get ⟨i, h1⟩) =
          { ([⟨"hello", [], "", "", "", [], 0, []⟩] :
              List ResearchPaper).get ⟨i, h2⟩ with
              relevance_score :=
                (([⟨"hello", [], "", "", "", [], (1 : ℚ) / 2, []⟩] :
                  List ResearchPaper).get ⟨i, h1⟩).relevance_score })
    ∧ (scored_papers {} trivEnv "x" 5 = some [] ∧
      search_papers {} trivEnv "x" 5 = some ([], 0) ∧
      ([] : List ResearchPaper) =
        (([] : List ResearchPaper).mergeSort scoreDesc).take 5 ∧
      (([] : List ResearchPaper).mergeSort scoreDesc).Pairwise
        (fun a b => b.relevance_score ≤ a.relevance_score) ∧
      ∀ c : List ResearchPaper, c.Pairwise (fun a b => scoreDesc a b = true) →
        List.Sublist c ([] : List ResearchPaper) →
        List.Sublist c (([] : List ResearchPaper).mergeSort scoreDesc)) := by
  have h5a : scored_papers {} trivEnv "x" 5 = some [] := by decide
  have h5b : search_papers {} trivEnv "x" 5 = some ([], 0) := by
    unfold search_papers
    rw [h5a]
    simp
  have h2a : ∀ x ∈ ([1, 2] : List ℝ), 0 ≤ x := by
    intro x hx
    rcases List.mem_cons.1 hx with rfl | hx
    · norm_num
    · rcases List.mem_cons.1 hx with rfl | hx
      · norm_num
      · simp at hx
  have h2b : ∀ x ∈ ([0, 3] : List ℝ), 0 ≤ x := by
    intro x hx
    rcases List.mem_cons.1 hx with rfl | hx
    · norm_num
    · rcases List.mem_cons.1 hx with rfl | hx
      · norm_num
      · simp at hx
  refine ⟨⟨rfl, ranking_bounds_and_stable_sort.1
      [⟨"hello", [], "", "", "", [], 0, []⟩] "hello"
      [⟨"hello", [], "", "", "", [],
        fallbackScoreOf "hello" ⟨"hello", [], "", "", "", [], 0, []⟩, []⟩] rfl⟩,
    ⟨h2a, h2b, ranking_bounds_and_stable_sort.2.1 _ _ h2a h2b⟩,
    ⟨by decide, ranking_bounds_and_stable_sort.2.2.1 2 1 3 (by decide)⟩,
    ⟨rfl, ranking_bounds_and_stable_sort.2.2.2.1 (fun _ => some fun _ => 1 / 2)
      [⟨"hello", [], "", "", "", [], 0, []⟩] "hi"
      [⟨"hello", [], "", "", "", [], 1 / 2, []⟩] rfl⟩,
    ⟨h5a, h5b, ranking_bounds_and_stable_sort.2.2.2.2 {} trivEnv "x" 5 [] 0 []
      h5a h5b⟩⟩

/-! Lemmas and claims about the aggregation pipeline. -/

/-- C1: a successful `searchPapers(q, k)` call returns at most `k` papers:
the returned length is exactly `min k total`, the reported total is at
least the returned length, and the total is the number of unique papers
after deduplication (which the ranker and the stable sort preserve), i.e.
the pre-truncation count (`enhanced_search.py`, line 70). -/
theorem searchPapers_truncation_accounting
    (self : EnhancedSearchEngine) (env : Env) (query : String) (k : Nat)
    (_hk : 0 < k) (ps : List ResearchPaper) (total : Nat)
    (h : search_papers self env query k = some (ps, total)) :
    ps.length = min k total ∧ ps.length ≤ total ∧
      total = (unique_papers self env query k).length := by
  cases hs : scored_papers self env query k with
  | none =>
    unfold search_papers at h
    rw [hs] at h
    exact absurd h (by simp)
  | some scored =>
    have heq := search_papers_eq self env query k scored hs
    rw [h] at heq
    have hpair := Option.some_injective _ heq
    have hps : ps = (scored.mergeSort scoreDesc).take k :=
      congrArg Prod.fst hpair
    have htot : total = (scored.mergeSort scoreDesc).length :=
      congrArg Prod.snd hpair
    have hlen : (scored.mergeSort scoreDesc).length = scored.length :=
      List.length_mergeSort scored
    have hscored_len : scored.length = (unique_papers self env query k).length :=
      calculate_relevance_scores_length env.vectorize
        (unique_papers self env query k) query scored hs
    refine ⟨?_, ?_, ?_⟩
    · rw [hps, htot, List.length_take]
    · rw [hps, htot, List.length_take]
      exact Nat.min_le_right _ _
    · rw [htot, hlen, hscored_len]

/-- Witness for C1: in an environment where every provider fails, the call
returns an empty page and zero total, and the accounting equations hold. -/
theorem searchPapers_truncation_accounting_witness :
    0 < 5 ∧ search_papers {} trivEnv "x" 5 = some ([], 0) ∧
      (([] : List ResearchPaper).length = min 5 0 ∧
        ([] : List ResearchPaper).length ≤ 0 ∧
        0 = (unique_papers {} trivEnv "x" 5).length) := by
  have hs : scored_papers {} trivEnv "x" 5 = some [] := by decide
  have hb : search_papers {} trivEnv "x" 5 = some ([], 0) := by
    unfold search_papers
    rw [hs]
    simp
  exact ⟨by decide, hb,
    searchPapers_truncation_accounting {} trivEnv "x" 5 (by decide) [] 0 hb⟩

/-- C4: the only adapter whose provider requires a credential is the Serper
one (the Semantic Scholar key is optional: the code calls that API with or
without the key header).  With no Serper API key, `_search_serper` returns
an empty sequence immediately and attempts zero outbound HTTP calls, and
the Serper segment of every `search_papers` aggregation is empty with zero
outbound calls (`enhanced_search.py`, lines 49-52 and 137-138). -/
theorem serper_skipped_without_credential
    (self : EnhancedSearchEngine) (env : Env) (q : String) (n : Nat)
    (cleaned : String) (k : Nat)
    (hkey : self.serper_api_key = none) :
    search_serper self.serper_api_key env.serperPost q n = ([], 0) ∧
      serper_contribution self env cleaned k = [] ∧
      serper_calls self env q k = 0 := by
  refine ⟨?_, ?_, ?_⟩
  · rw [hkey]
    rfl
  · unfold serper_contribution
    rw [hkey]
    rfl
  · unfold serper_calls
    rw [hkey]
    rfl

/-- Witness for C4 at a concrete credential-free engine. -/
theorem serper_skipped_without_credential_witness :
    ({ serper_api_key := none, semantic_scholar_api_key := none } :
        EnhancedSearchEngine).serper_api_key = none ∧
      (search_serper ({ serper_api_key := none, semantic_scholar_api_key := none } :
          EnhancedSearchEngine).serper_api_key trivEnv.serperPost "q" 5 = ([], 0) ∧
        serper_contribution {} trivEnv "q" 10 = [] ∧
        serper_calls {} trivEnv "q" 10 = 0) :=
  ⟨rfl, serper_skipped_without_credential {} trivEnv "q" 5 "q" 10 rfl⟩

/-- C3 fails on the code: the embedded pipeline, evaluated at a
whitespace-free empty query and a provider batch whose only surviving
paper has no vectorizable term (title `a!!`, empty abstract), escapes with
an exception instead of returning an empty result set.  The document batch
is `["a!! ", ""]`; it yields no sklearn token at all (every word-character
run is shorter than 2 characters), so the vectorizer raises on its empty
vocabulary, and the fallback then evaluates `matches / len(set("".split()))
= matches / 0` (`base_search.py`, line 113), raising `ZeroDivisionError`
before any score is assigned; nothing catches it, so it propagates out of
`search_papers` (modelled by the `none` result). -/
theorem searchPapers_zero_division_escape
    (vec : List String → Option (Nat → ℚ))
    (hvec : vec ["a!! ", ""] = none) :
    documentsOf (unique_papers {} (bugEnv vec) "" 10) "" = ["a!! ", ""] ∧
      sklearnUnigrams "a!! " = [] ∧ sklearnUnigrams "" = [] ∧
      queryKeywords "" = [] ∧
      search_papers {} (bugEnv vec) "" 10 = none := by
  refine ⟨rfl, by decide, by decide, by decide, ?_⟩
  have hu : unique_papers {} (bugEnv vec) "" 10 =
      [⟨"a!!", [], "", "", "", ["semantic_scholar"], 0, []⟩] := rfl
  have hs : scored_papers {} (bugEnv vec) "" 10 = none := by
    unfold scored_papers
    rw [hu]
    show calculate_relevance_scores vec
      [⟨"a!!", [], "", "", "", ["semantic_scholar"], 0, []⟩] "" = none
    unfold calculate_relevance_scores
    rw [if_neg (by decide)]
    have hd : documentsOf
        [(⟨"a!!", [], "", "", "", ["semantic_scholar"], 0, []⟩ : ResearchPaper)] "" =
        ["a!! ", ""] := rfl
    rw [hd, hvec]
    decide
  unfold search_papers
  rw [hs]

/-- Witness for C3's failing input: the always-failing vectorization
oracle realizes the hypothesis, and the pipeline escapes. -/
theorem searchPapers_zero_division_escape_witness :
    ((fun _ => none) : List String → Option (Nat → ℚ)) ["a!! ", ""] = none ∧
      (documentsOf (unique_papers {} (bugEnv fun _ => none) "" 10) "" =
          ["a!! ", ""] ∧
        sklearnUnigrams "a!! " = [] ∧ sklearnUnigrams "" = [] ∧
        queryKeywords "" = [] ∧
        search_papers {} (bugEnv fun _ => none) "" 10 = none) :=
  ⟨rfl, searchPapers_zero_division_escape (fun _ => none) rfl⟩

theorem search_serper_source (key : Option String)
    (post : String → Nat → Option SerperData) (q : String) (n : Nat) :
    ∀ r ∈ (search_serper key post q n).1,
      r.source = "serper" ∨ r.source = "serper_scholar" := by
  intro r hr
  cases key with
  | none => simp [search_serper] at hr
  | some k =>
    unfold search_serper at hr
    simp only [] at hr
    cases hpost : post (q ++ serper_site_filter) n with
    | none => rw [hpost] at hr; simp at hr
    | some data =>
      rw [hpost] at hr
      simp only [] at hr
      rcases List.mem_append.1 hr with h | h
      · obtain ⟨it, -, rfl⟩ := List.mem_map.1 h
        exact Or.inl rfl
      · obtain ⟨it, -, rfl⟩ := List.mem_map.1 h
        exact Or.inr rfl

theorem search_semantic_scholar_source (key : Option String)
    (get : String → Nat → Option (List S2Paper)) (q : String) (n : Nat) :
    ∀ r ∈ search_semantic_scholar key get q n, r.source = "semantic_scholar" := by
  intro r hr
  unfold search_semantic_scholar at hr
  cases hget : get q n with
  | none => rw [hget] at hr; simp at hr
  | some papers =>
    rw [hget] at hr
    obtain ⟨p, -, rfl⟩ := List.mem_map.1 hr
    rfl

theorem search_crossref_source
    (get : String → Nat → Option (List CRItem)) (q : String) (n : Nat) :
    ∀ r ∈ search_crossref get q n, r.source = "crossref" := by
  intro r hr
  unfold search_crossref at hr
  cases hget : get q n with
  | none => rw [hget] at hr; simp at hr
  | some items =>
    rw [hget] at hr
    obtain ⟨it, -, rfl⟩ := List.mem_map.1 hr
    rfl

theorem convert_papers_to_results_source (papers : List ResearchPaper) :
    ∀ r ∈ convert_papers_to_results papers, r.source = "arxiv" := by
  intro r hr
  obtain ⟨p, -, rfl⟩ := List.mem_map.1 hr
  rfl

theorem aggregate_results_sources (self : EnhancedSearchEngine) (env : Env)
    (query : String) (k : Nat) :
    ∀ r ∈ aggregate_results self env query k,
      r.source ∈ (["arxiv", "serper", "serper_scholar", "semantic_scholar",
        "crossref"] : List String) := by
  intro r hr
  unfold aggregate_results at hr
  rcases List.mem_append.1 hr with h | h
  · rcases List.mem_append.1 h with h | h
    · rcases List.mem_append.1 h with h | h
      · rw [convert_papers_to_results_source _ r h]
        decide
      · unfold serper_contribution at h
        by_cases hkey : self.serper_api_key.isSome
        · rw [if_pos hkey] at h
          rcases search_serper_source self.serper_api_key env.serperPost
              (clean_query query) (k / 2) r h with h2 | h2 <;>
            rw [h2] <;> decide
        · rw [if_neg hkey] at h
          simp at h
    · rw [search_semantic_scholar_source self.semantic_scholar_api_key
        env.semanticGet (clean_query query) (k / 3) r h]
      decide
  · rw [search_crossref_source env.crossrefGet (clean_query query) (k / 4) r h]
    decide

theorem calculate_mem_preserves
    (vec : List String → Option (Nat → ℚ)) (papers : List ResearchPaper)
    (query : String) (out : List ResearchPaper)
    (h : calculate_relevance_scores vec papers query = some out) :
    ∀ p ∈ out, ∃ q ∈ papers, p.title = q.title ∧ p.categories = q.categories := by
  intro p hp
  by_cases hne : papers = []
  · subst hne
    unfold calculate_relevance_scores at h
    rw [if_pos rfl] at h
    rw [← Option.some_injective _ h] at hp
    simp at hp
  · rcases calculate_relevance_scores_cases vec papers query out hne h with
      ⟨sims, -, rfl⟩ | ⟨-, -, rfl⟩
    · obtain ⟨i, hi, hget⟩ := List.mem_iff_getElem.1 hp
      have hip : i < papers.length := by
        simpa [setScores] using hi
      refine ⟨papers[i], List.getElem_mem _, ?_⟩
      rw [← hget]
      simp [setScores]
    · obtain ⟨q, hq, rfl⟩ := List.mem_map.1 hp
      exact ⟨q, hq, rfl, rfl⟩

/-- C10: every paper emitted by `search_papers` carries as its `categories`
exactly the one-element sequence holding the provider tag of the result it
was converted from; native provider categories (e.g. ArXiv subject
categories) are dropped by `_convert_papers_to_results` and never reach the
output (`enhanced_search.py`, lines 290-303 and 318-327). -/
theorem categories_are_provider_tag
    (self : EnhancedSearchEngine) (env : Env) (query : String) (k : Nat)
    (ps : List ResearchPaper) (total : Nat)
    (h : search_papers self env query k = some (ps, total)) :
    ∀ p ∈ ps, ∃ r ∈ aggregate_results self env query k,
      p.title = r.title ∧ p.categories = [r.source] ∧
      r.source ∈ (["arxiv", "serper", "serper_scholar", "semantic_scholar",
        "crossref"] : List String) := by
  intro p hp
  cases hs : scored_papers self env query k with
  | none =>
    unfold search_papers at h
    rw [hs] at h
    exact absurd h (by simp)
  | some scored =>
    have heq := search_papers_eq self env query k scored hs
    rw [h] at heq
    have hps : ps = (scored.mergeSort scoreDesc).take k :=
      congrArg Prod.fst (Option.some_injective _ heq)
    rw [hps] at hp
    have hp2 : p ∈ scored := List.mem_mergeSort.1 (List.mem_of_mem_take hp)
    obtain ⟨q, hq, htitle, hcat⟩ := calculate_mem_preserves env.vectorize
      (unique_papers self env query k) query scored hs p hp2
    have hq2 : q ∈ (dedupAux (fun r => r.title) []
        (aggregate_results self env query k)).map resultToPaper := hq
    obtain ⟨r, hr, rfl⟩ := List.mem_map.1 hq2
    refine ⟨r, (dedupAux_sublist _ _ []).subset hr, ?_, ?_, ?_⟩
    · exact htitle
    · exact hcat
    · exact aggregate_results_sources self env query k r
        ((dedupAux_sublist _ _ []).subset hr)

/-- Witness for C10: a provider batch with one Semantic Scholar paper and a
successful vectorization; the emitted paper's categories are exactly the
provider tag. -/
theorem categories_are_provider_tag_witness :
    search_papers {} (bugEnv fun _ => some fun _ => 0) "" 10 =
      some ([⟨"a!!", [], "", "", "", ["semantic_scholar"], 0, []⟩], 1) ∧
      ∀ p ∈ ([⟨"a!!", [], "", "", "", ["semantic_scholar"], 0, []⟩] :
          List ResearchPaper),
        ∃ r ∈ aggregate_results {} (bugEnv fun _ => some fun _ => 0) "" 10,
          p.title = r.title ∧ p.categories = [r.source] ∧
          r.source ∈ (["arxiv", "serper", "serper_scholar", "semantic_scholar",
            "crossref"] : List String) := by
  have hs : scored_papers {} (bugEnv fun _ => some fun _ => 0) "" 10 =
      some [⟨"a!!", [], "", "", "", ["semantic_scholar"], 0, []⟩] := by decide
  have hb : search_papers {} (bugEnv fun _ => some fun _ => 0) "" 10 =
      some ([⟨"a!!", [], "", "", "", ["semantic_scholar"], 0, []⟩], 1) := by
    unfold search_papers
    rw [hs]
    simp
  exact ⟨hb, categories_are_provider_tag {} (bugEnv fun _ => some fun _ => 0)
    "" 10 _ 1 hb⟩
